import Mathlib

/-!
Shallow embedding of `ryzen-power.py` (class `RyzenPower`), a tool that
measures AMD Ryzen CPU power draw by sampling MSR energy counters.

Python floats are modelled by exact rationals (all values involved are
dyadic), Python ints by `ℤ`/`ℕ`, the filesystem and the `/dev/cpu/N/msr`
device by oracle functions, and Python exceptions by an explicit error type.
-/

namespace RyzenPower

/-- MSR offset of the power-unit status register (`AMD_MSR_PWR_UNIT_OFFSET`). -/
def AMD_MSR_PWR_UNIT_OFFSET : ℕ := 0xC0010299

/-- MSR offset of the per-core energy counter (`AMD_MSR_CORE_ENERGY_OFFSET`). -/
def AMD_MSR_CORE_ENERGY_OFFSET : ℕ := 0xC001029A

/-- MSR offset of the package energy counter (`AMD_MSR_PACKAGE_ENERGY_OFFSET`). -/
def AMD_MSR_PACKAGE_ENERGY_OFFSET : ℕ := 0xC001029B

/-- Bit mask selecting the energy-unit field (`AMD_ENERGY_UNIT_MASK = 0x1F00`). -/
def AMD_ENERGY_UNIT_MASK : ℤ := 0x1F00

/-- Python exceptions raised by the program: `PermissionError` and
`FileNotFoundError` carry the message given at the raise site in
`_read_msr`; `ioError` stands for the `OSError`/`ValueError` family raised
while reading or parsing a sysfs file. -/
inductive PyErr where
  | permissionDenied (msg : String)
  | fileNotFound (msg : String)
  | ioError
deriving DecidableEq

/-- Little-endian byte-list to natural number (the bit pattern that
`struct.unpack("q", buffer)` decodes). -/
def bytesToNat : List ℕ → ℕ
  | [] => 0
  | b :: bs => b + 256 * bytesToNat bs

/-- `RyzenPower._decode_int64`: reinterpret an 8-byte little-endian buffer
as a signed 64-bit integer (two's complement), as `unpack("q", buffer)[0]`
does. -/
def decode_int64 (buffer : List ℕ) : ℤ :=
  let n := bytesToNat buffer
  if n < 2 ^ 63 then (n : ℤ) else (n : ℤ) - 2 ^ 64

/-- `RyzenPower._get_energy_units` applied to the already-decoded signed
value of the unit-status register: `(raw & AMD_ENERGY_UNIT_MASK) >> 8`
gives the exponent, and the unit is `0.5 ** exponent`. -/
def get_energy_units (raw : ℤ) : ℚ :=
  let e := Int.land raw AMD_ENERGY_UNIT_MASK >>> (8 : ℤ)
  (1 / 2 : ℚ) ^ e

/-- `RyzenPower._calc_power`: `(after - before) * energy_unit / duration`.
`before`/`after` are raw (signed) counter samples, `unit` the cached energy
unit and `dur` the configured duration. -/
def calc_power (unit dur : ℚ) (before after : ℤ) : ℚ :=
  ((after : ℚ) - (before : ℚ)) * unit / dur

/-- `RyzenPower._detect_smt`: the argument is the contents of
`/sys/devices/system/cpu/smt/control` (`none` when the file is absent,
raising `FileNotFoundError`).  Returns the SMT flag together with a flag
recording whether the non-fatal warning was emitted. -/
def detect_smt (file : Option String) : Bool × Bool :=
  match file with
  | some s => (s.trim == "on", false)
  | none => (true, true)

/-- Monitored-core derivation from `RyzenPower.__init__` (lines 46-49):
take the keys of the package-topology mapping, drop odd core ids when SMT
is on, and sort ascending. -/
def monitored_cores (topology : List (ℕ × ℤ)) (smt : Bool) : List ℕ :=
  let cores := topology.map Prod.fst
  let cores := if smt then cores.filter (fun c => c % 2 == 0) else cores
  List.insertionSort (· ≤ ·) cores

/-- `RyzenPower._detect_physical_package_topology`: the sysfs tree is
modelled by three oracles: `fileIsFile i` tells whether
`/sys/devices/system/cpu/cpuI/topology/physical_package_id` exists,
`readFile i` its contents (`none` when reading raises an `OSError`), and
`parseInt` the behaviour of Python `int` on the contents (`none` when it
raises a `ValueError`).  The Python loop `for cpu_id in count()` is
unbounded, so the embedding takes a fuel argument and returns `none` when
fuel runs out before the loop returns. -/
def detect_physical_package_topology (fileIsFile : ℕ → Bool)
    (readFile : ℕ → Option String) (parseInt : String → Option ℤ) :
    ℕ → ℕ → Option (Except PyErr (List (ℕ × ℤ)))
  | 0, _ => none
  | fuel + 1, cpu_id =>
    if fileIsFile cpu_id then
      match readFile cpu_id with
      | none => some (.error .ioError)
      | some s =>
        match parseInt s with
        | none => some (.error .ioError)
        | some pkg =>
          match detect_physical_package_topology fileIsFile readFile parseInt fuel (cpu_id + 1) with
          | none => none
          | some (.error e) => some (.error e)
          | some (.ok rest) => some (.ok ((cpu_id, pkg) :: rest))
    else some (.ok [])

/-- Outcome of opening and reading `/dev/cpu/N/msr` at one offset: the
8-byte buffer, a `PermissionError` from the OS, or a missing device file. -/
inductive MsrOutcome where
  | ok (buffer : List ℕ)
  | permDenied
  | notFound

/-- The message `_read_msr` re-raises `PermissionError` with. -/
def permission_msg : String :=
  "root privilege is required to read model-specific registers"

/-- The message `_read_msr` re-raises `FileNotFoundError` with. -/
def notfound_msg : String :=
  "msr driver is not loaded, try \"sudo modprobe msr\" to load msr module"

/-- `RyzenPower._read_msr`: seek to `offset` in `/dev/cpu/cpu_id/msr`, read
8 bytes and decode them as a signed 64-bit value; translate the two OS
failures into the program's own error messages. -/
def read_msr (dev : ℕ → ℕ → MsrOutcome) (cpu_id offset : ℕ) : Except PyErr ℤ :=
  match dev cpu_id offset with
  | .ok buffer => .ok (decode_int64 buffer)
  | .permDenied => .error (.permissionDenied permission_msg)
  | .notFound => .error (.fileNotFound notfound_msg)

/-- Observable events of one `measure` call: an MSR read of a given core
and offset, or the sleep of a given duration. -/
inductive Ev where
  | readEv (cpu_id offset : ℕ)
  | sleepEv (dur : ℚ)
deriving DecidableEq

/-- One sampling pass of `measure`: the dict comprehension
`{c: self._read_*_energy(c) for c in self._cores}` reads the counter at
`offset` for each core in order, aborting at the first exception.  Also
records the trace of reads performed. -/
def read_energy_all (dev : ℕ → ℕ → MsrOutcome) (offset : ℕ) :
    List ℕ → Except PyErr (List (ℕ × ℤ)) × List Ev
  | [] => (.ok [], [])
  | c :: cs =>
    match read_msr dev c offset with
    | .error e => (.error e, [Ev.readEv c offset])
    | .ok v =>
      let rest := read_energy_all dev offset cs
      (Except.map (fun m => (c, v) :: m) rest.1, Ev.readEv c offset :: rest.2)

/-- The signed counter value a successful read of `dev` yields at offset
`off` on core `c` (0 when the read fails). -/
def msrVal (dev : ℕ → ℕ → MsrOutcome) (off c : ℕ) : ℤ :=
  match dev c off with
  | .ok buffer => decode_int64 buffer
  | _ => 0

/-- The signed counter value a successful read of `dev` yields at phase
`ph` (`false` = before the sleep, `true` = after), offset `off`, core `c`. -/
def devVal (dev : Bool → ℕ → ℕ → MsrOutcome) (ph : Bool) (off c : ℕ) : ℤ :=
  msrVal (dev ph) off c

/-- `RyzenPower.measure` (lines 118-127): read package and core counters
for every monitored core, sleep for the configured duration, re-read both,
and compute the two power dictionaries.  `dev ph` is the MSR device as
observed before (`ph = false`) and after (`ph = true`) the sleep; each
(phase, core, offset) triple is read at most once, so a per-phase oracle
loses no generality.  Returns the result (or the first exception) together
with the trace of reads and the sleep. -/
def measure (dev : Bool → ℕ → ℕ → MsrOutcome) (cores : List ℕ) (unit dur : ℚ) :
    Except PyErr (List (ℕ × ℚ) × List (ℕ × ℚ)) × List Ev :=
  let pb := read_energy_all (dev false) AMD_MSR_PACKAGE_ENERGY_OFFSET cores
  match pb.1 with
  | .error e => (.error e, pb.2)
  | .ok package_energy_before =>
    let cb := read_energy_all (dev false) AMD_MSR_CORE_ENERGY_OFFSET cores
    match cb.1 with
    | .error e => (.error e, pb.2 ++ cb.2)
    | .ok core_energy_before =>
      let pa := read_energy_all (dev true) AMD_MSR_PACKAGE_ENERGY_OFFSET cores
      match pa.1 with
      | .error e => (.error e, pb.2 ++ cb.2 ++ [Ev.sleepEv dur] ++ pa.2)
      | .ok package_energy_after =>
        let ca := read_energy_all (dev true) AMD_MSR_CORE_ENERGY_OFFSET cores
        match ca.1 with
        | .error e => (.error e, pb.2 ++ cb.2 ++ [Ev.sleepEv dur] ++ pa.2 ++ ca.2)
        | .ok core_energy_after =>
          let package_power := cores.map (fun c =>
            (c, calc_power unit dur ((package_energy_before.lookup c).getD 0)
                  ((package_energy_after.lookup c).getD 0)))
          let core_power := cores.map (fun c =>
            (c, calc_power unit dur ((core_energy_before.lookup c).getD 0)
                  ((core_energy_after.lookup c).getD 0)))
          (.ok (package_power, core_power),
            pb.2 ++ cb.2 ++ [Ev.sleepEv dur] ++ pa.2 ++ ca.2)

/-- A row of the result table built by `_format_result`: the header row,
a per-socket row (socket id, summed cores power, package power), or a
per-core row (displayed core label, core power). -/
inductive Row where
  | header
  | socketRow (socket : ℤ) (cores_power package_power : ℚ)
  | coreRow (label : ℕ) (power : ℚ)
deriving DecidableEq

/-- The inner loop of `_format_result` (lines 146-158) for one socket:
fold over the monitored cores, accumulating the summed cores power, the
(last-written) package power, and the per-core table rows with label
`core // 2 if self._is_smt else core`. -/
def socket_entry (cores : List ℕ) (topo : ℕ → ℤ) (smt : Bool)
    (core_power package_power : ℕ → ℚ) (socket : ℤ) : ℚ × ℚ × List Row :=
  cores.foldl (fun st c =>
    if topo c = socket then
      (st.1 + core_power c, package_power c,
        st.2.2 ++ [Row.coreRow (if smt then c / 2 else c) (core_power c)])
    else st) (0, 0, [])

/-- `sorted(set(self._package_topology.values()))` (line 143). -/
def result_sockets (topology : List (ℕ × ℤ)) : List ℤ :=
  List.insertionSort (· ≤ ·) (topology.map Prod.snd).dedup

/-- The rows one socket contributes to the table: its socket row (with the
accumulated totals of `socket_entry`) followed by its core rows. -/
def socket_block (cores : List ℕ) (topo : ℕ → ℤ) (smt : Bool)
    (core_power package_power : ℕ → ℚ) (socket : ℤ) : List Row :=
  let e := socket_entry cores topo smt core_power package_power socket
  Row.socketRow socket e.1 e.2.1 :: e.2.2

/-- `RyzenPower._format_result` (lines 142-161) as the abstract table it
renders: the header row, then for each socket its socket row followed by
its core rows. -/
def format_result (sockets : List ℤ) (cores : List ℕ) (topo : ℕ → ℤ)
    (smt : Bool) (core_power package_power : ℕ → ℚ) : List Row :=
  Row.header :: sockets.foldl (fun acc socket =>
    acc ++ socket_block cores topo smt core_power package_power socket) []

end RyzenPower

namespace RyzenPower

/-- C1: for every pair of counter samples, every unit and every positive
duration, `_calc_power` returns exactly `(after - before) * unit / duration`
(so it is a function of the counter delta alone and vanishes on equal
samples), and on the end-to-end fixture `unit = 2^-14`, `before = 1000`,
`after = 2024`, `duration = 0.5` it returns `0.125` W. -/
theorem calc_power_spec :
    (∀ (unit dur : ℚ) (before after x : ℤ), 0 < dur →
      calc_power unit dur before after = ((after : ℚ) - before) * unit / dur ∧
      calc_power unit dur x x = 0) ∧
    calc_power ((1 / 2 : ℚ) ^ 14) (1 / 2) 1000 2024 = 1 / 8 := by
  constructor
  · intro unit dur before after x _
    refine ⟨rfl, ?_⟩
    simp [calc_power]
  · norm_num [calc_power]

/-- Witness for `calc_power_spec`: instantiates the quantified part at
`unit = 3`, `dur = 2`, `before = 5`, `after = 11`, `x = 7`. -/
theorem calc_power_spec_witness :
    calc_power 3 2 5 11 = ((11 : ℚ) - 5) * 3 / 2 ∧ calc_power 3 2 7 7 = 0 :=
  calc_power_spec.1 3 2 5 11 7 (by norm_num)

theorem bytesToNat_lt (buffer : List ℕ) (hb : ∀ b ∈ buffer, b < 256) :
    bytesToNat buffer < 2 ^ (8 * buffer.length) := by
  induction buffer with
  | nil => simp [bytesToNat]
  | cons b bs ih =>
    have h1 : b < 256 := hb b (by simp)
    have h2 : bytesToNat bs < 2 ^ (8 * bs.length) := ih (fun x hx => hb x (by simp [hx]))
    have h3 : 2 ^ (8 * (b :: bs).length) = 256 * 2 ^ (8 * bs.length) := by
      simp only [List.length_cons, Nat.mul_succ, Nat.mul_add, pow_add, pow_succ]
      ring
    rw [h3]
    simp only [bytesToNat]
    omega

theorem land_mask_of_lt (n : ℕ) (h : n < 2 ^ 64) :
    Int.land (if n < 2 ^ 63 then (n : ℤ) else (n : ℤ) - 2 ^ 64) AMD_ENERGY_UNIT_MASK
      = ((n &&& 0x1F00 : ℕ) : ℤ) := by
  by_cases h63 : n < 2 ^ 63
  · rw [if_pos h63]
    rfl
  · rw [if_neg h63]
    have hneg : (n : ℤ) - 2 ^ 64 = Int.negSucc (2 ^ 64 - 1 - n) := by
      rw [Int.negSucc_eq]
      push_cast
      omega
    rw [hneg]
    show ((Nat.ldiff 0x1F00 (2 ^ 64 - 1 - n) : ℕ) : ℤ) = ((n &&& 0x1F00 : ℕ) : ℤ)
    congr 1
    apply Nat.eq_of_testBit_eq
    intro i
    have hsub : 2 ^ 64 - 1 - n = 2 ^ 64 - (n + 1) := by omega
    rw [Nat.testBit_ldiff, Nat.testBit_and, hsub, Nat.testBit_two_pow_sub_succ h]
    by_cases hi : i < 13
    · have h64 : i < 64 := by omega
      simp [h64, Bool.and_comm]
    · have hm : Nat.testBit 0x1F00 i = false := by
        apply Nat.testBit_lt_two_pow
        calc (0x1F00 : ℕ) < 2 ^ 13 := by norm_num
          _ ≤ 2 ^ i := Nat.pow_le_pow_right (by norm_num) (by omega)
      simp [hm]

theorem natCast_shiftRight_eight (m : ℕ) :
    ((m : ℤ) >>> (8 : ℤ)) = ((m >>> 8 : ℕ) : ℤ) := rfl

theorem and_mask_shiftRight (n : ℕ) :
    (n &&& 0x1F00) >>> 8 = n / 2 ^ 8 % 2 ^ 5 := by
  apply Nat.eq_of_testBit_eq
  intro i
  rw [Nat.testBit_shiftRight, Nat.testBit_and, Nat.testBit_mod_two_pow,
    ← Nat.shiftRight_eq_div_pow, Nat.testBit_shiftRight]
  by_cases hi : i < 5
  · have hm : Nat.testBit 0x1F00 (8 + i) = true := by
      interval_cases i <;> decide
    simp [hm, hi]
  · have hm : Nat.testBit 0x1F00 (8 + i) = false := by
      apply Nat.testBit_lt_two_pow
      calc (0x1F00 : ℕ) < 2 ^ 13 := by norm_num
        _ ≤ 2 ^ (8 + i) := Nat.pow_le_pow_right (by norm_num) (by omega)
    simp [hm, hi]

theorem get_energy_units_decode (buffer : List ℕ) (h8 : buffer.length = 8)
    (hb : ∀ b ∈ buffer, b < 256) :
    get_energy_units (decode_int64 buffer) =
      (2 : ℚ) ^ (-(bytesToNat buffer / 2 ^ 8 % 2 ^ 5 : ℕ) : ℤ) := by
  have hlt : bytesToNat buffer < 2 ^ 64 := by
    have := bytesToNat_lt buffer hb
    rw [h8] at this
    exact this
  unfold get_energy_units decode_int64
  rw [land_mask_of_lt _ hlt, natCast_shiftRight_eight, and_mask_shiftRight]
  rw [zpow_natCast, zpow_neg, zpow_natCast, one_div, inv_pow]

/-- C2: for every raw 64-bit value of the unit-status register (given as the
8-byte buffer the MSR read returns), `_get_energy_units` extracts the 5-bit
field at bits 8-12 as an exponent `e < 32` and returns `2^(-e)`; for a raw
value with that field equal to 16 the unit is exactly `1/65536`. -/
theorem energy_unit_extraction :
    (∀ buffer : List ℕ, buffer.length = 8 → (∀ b ∈ buffer, b < 256) →
      get_energy_units (decode_int64 buffer) =
        (2 : ℚ) ^ (-(bytesToNat buffer / 2 ^ 8 % 2 ^ 5 : ℕ) : ℤ) ∧
      bytesToNat buffer / 2 ^ 8 % 2 ^ 5 < 32) ∧
    get_energy_units (decode_int64 [0, 16, 0, 0, 0, 0, 0, 0]) = 1 / 65536 := by
  constructor
  · intro buffer h8 hb
    exact ⟨get_energy_units_decode buffer h8 hb, Nat.mod_lt _ (by norm_num)⟩
  · rw [get_energy_units_decode [0, 16, 0, 0, 0, 0, 0, 0] (by decide) (by decide)]
    norm_num [bytesToNat]

/-- Witness for `energy_unit_extraction`: the quantified part at the
concrete buffer whose energy-unit field is 14, giving `2^-14`. -/
theorem energy_unit_extraction_witness :
    get_energy_units (decode_int64 [0, 14, 0, 0, 0, 0, 0, 0]) =
      (2 : ℚ) ^ (-(bytesToNat [0, 14, 0, 0, 0, 0, 0, 0] / 2 ^ 8 % 2 ^ 5 : ℕ) : ℤ) ∧
    bytesToNat [0, 14, 0, 0, 0, 0, 0, 0] / 2 ^ 8 % 2 ^ 5 < 32 :=
  energy_unit_extraction.1 [0, 14, 0, 0, 0, 0, 0, 0] (by decide) (by decide)

/-- C3: the monitored-core list is the topology key set, restricted to even
core ids exactly when SMT is enabled, and it is always sorted ascending; on
the topology mapping 0,1,2,3 to socket 0 it is `[0, 2]` with SMT enabled
and `[0, 1, 2, 3]` with SMT disabled. -/
theorem monitored_cores_spec :
    (∀ (topology : List (ℕ × ℤ)) (smt : Bool),
      List.Sorted (· ≤ ·) (monitored_cores topology smt) ∧
      ∀ c, c ∈ monitored_cores topology smt ↔
        c ∈ topology.map Prod.fst ∧ (smt = true → c % 2 = 0)) ∧
    monitored_cores [(0, 0), (1, 0), (2, 0), (3, 0)] true = [0, 2] ∧
    monitored_cores [(0, 0), (1, 0), (2, 0), (3, 0)] false = [0, 1, 2, 3] := by
  refine ⟨fun topology smt => ⟨List.sorted_insertionSort _ _, fun c => ?_⟩, by decide, by decide⟩
  cases smt
  · simp [monitored_cores, (List.perm_insertionSort (· ≤ ·) _).mem_iff]
  · simp [monitored_cores, (List.perm_insertionSort (· ≤ ·) _).mem_iff, List.mem_filter]

/-- C7: `_detect_smt` returns `true` iff the trimmed contents of the SMT
control file equal `"on"`, and when the file is missing it returns `true`
and emits the non-fatal warning (second component) instead of failing. -/
theorem detect_smt_spec :
    (∀ s : String,
      ((detect_smt (some s)).1 = true ↔ s.trim = "on") ∧
      (detect_smt (some s)).2 = false) ∧
    detect_smt none = (true, true) := by
  refine ⟨fun s => ⟨?_, rfl⟩, rfl⟩
  simp [detect_smt]

theorem detect_topo_ok_go (fe : ℕ → Bool) (rf : ℕ → Option String)
    (pint : String → Option ℤ) :
    ∀ (g start fuel : ℕ),
      (∀ i, i < g → fe (start + i) = true) →
      fe (start + g) = false →
      (∀ i, i < g → ∃ s v, rf (start + i) = some s ∧ pint s = some v) →
      g < fuel →
      ∃ m, detect_physical_package_topology fe rf pint fuel start = some (.ok m) ∧
        m.map Prod.fst = (List.range g).map (start + ·) := by
  intro g
  induction g with
  | zero =>
    intro start fuel _ hgap _ hfuel
    obtain ⟨f, rfl⟩ : ∃ f, fuel = f + 1 := ⟨fuel - 1, by omega⟩
    rw [Nat.add_zero] at hgap
    exact ⟨[], by simp [detect_physical_package_topology, hgap], by simp⟩
  | succ g ih =>
    intro start fuel h hgap hread hfuel
    obtain ⟨f, rfl⟩ : ∃ f, fuel = f + 1 := ⟨fuel - 1, by omega⟩
    have hfe0 : fe start = true := by simpa using h 0 (by omega)
    obtain ⟨s, v, hs, hv⟩ := hread 0 (by omega)
    rw [Nat.add_zero] at hs
    obtain ⟨m, hm, hkeys⟩ := ih (start + 1) f
      (fun i hi => by
        have := h (i + 1) (by omega)
        rwa [show start + (i + 1) = start + 1 + i by omega] at this)
      (by
        have := hgap
        rwa [show start + (g + 1) = start + 1 + g by omega] at this)
      (fun i hi => by
        have := hread (i + 1) (by omega)
        rwa [show start + (i + 1) = start + 1 + i by omega] at this)
      (by omega)
    refine ⟨(start, v) :: m, ?_, ?_⟩
    · simp [detect_physical_package_topology, hfe0, hs, hv, hm]
    · simp only [List.map_cons, hkeys, List.range_succ_eq_map, List.map_map]
      refine congrArg (start :: ·) ?_
      refine List.map_congr_left fun i _ => ?_
      simp [Function.comp]
      omega

/-- C6: topology discovery enumerates CPU ids from 0 and stops at the first
id whose descriptor file is missing, returning exactly the CPUs before the
gap; over a filesystem exposing descriptors for CPUs 0-3 and none for CPU 4
it returns exactly the four entries for CPUs 0-3. -/
theorem topology_discovery_gap :
    (∀ (fe : ℕ → Bool) (rf : ℕ → Option String) (pint : String → Option ℤ)
      (g fuel : ℕ),
      (∀ i, i < g → fe i = true) →
      fe g = false →
      (∀ i, i < g → ∃ s v, rf i = some s ∧ pint s = some v) →
      g < fuel →
      ∃ m, detect_physical_package_topology fe rf pint fuel 0 = some (.ok m) ∧
        m.map Prod.fst = List.range g) ∧
    detect_physical_package_topology (fun i => decide (i < 4)) (fun _ => some "0")
      (fun s => if s = "0" then some 0 else none) 10 0 =
      some (.ok [(0, 0), (1, 0), (2, 0), (3, 0)]) := by
  constructor
  · intro fe rf pint g fuel h hgap hread hfuel
    obtain ⟨m, hm, hkeys⟩ := detect_topo_ok_go fe rf pint g 0 fuel
      (by simpa using h) (by simpa using hgap) (by simpa using hread) hfuel
    exact ⟨m, hm, by simpa using hkeys⟩
  · rfl

/-- Witness for `topology_discovery_gap`: a filesystem with CPUs 0 and 1
present and CPU 2 missing yields a two-entry mapping with keys 0 and 1. -/
theorem topology_discovery_gap_witness :
    ∃ m, detect_physical_package_topology (fun i => decide (i < 2))
        (fun _ => some "1") (fun _ => some 1) 5 0 = some (.ok m) ∧
      m.map Prod.fst = List.range 2 :=
  topology_discovery_gap.1 (fun i => decide (i < 2)) (fun _ => some "1")
    (fun _ => some 1) 2 5 (fun i hi => by simp [hi]) (by decide)
    (fun i _ => ⟨"1", 1, rfl, rfl⟩) (by omega)

theorem detect_topo_error_go (fe : ℕ → Bool) (rf : ℕ → Option String)
    (pint : String → Option ℤ) :
    ∀ (k start fuel : ℕ),
      (∀ i, i ≤ k → fe (start + i) = true) →
      (∀ i, i < k → ∃ s v, rf (start + i) = some s ∧ pint s = some v) →
      (rf (start + k) = none ∨ ∃ s, rf (start + k) = some s ∧ pint s = none) →
      k < fuel →
      detect_physical_package_topology fe rf pint fuel start =
        some (.error .ioError) := by
  intro k
  induction k with
  | zero =>
    intro start fuel h _ hfail hfuel
    obtain ⟨f, rfl⟩ : ∃ f, fuel = f + 1 := ⟨fuel - 1, by omega⟩
    have hfe0 : fe start = true := by simpa using h 0 (by omega)
    rw [Nat.add_zero] at hfail
    rcases hfail with hnone | ⟨s, hs, hp⟩
    · simp [detect_physical_package_topology, hfe0, hnone]
    · simp [detect_physical_package_topology, hfe0, hs, hp]
  | succ k ih =>
    intro start fuel h hread hfail hfuel
    obtain ⟨f, rfl⟩ : ∃ f, fuel = f + 1 := ⟨fuel - 1, by omega⟩
    have hfe0 : fe start = true := by simpa using h 0 (by omega)
    obtain ⟨s, v, hs, hv⟩ := hread 0 (by omega)
    rw [Nat.add_zero] at hs
    have hrec := ih (start + 1) f
      (fun i hi => by
        have := h (i + 1) (by omega)
        rwa [show start + (i + 1) = start + 1 + i by omega] at this)
      (fun i hi => by
        have := hread (i + 1) (by omega)
        rwa [show start + (i + 1) = start + 1 + i by omega] at this)
      (by
        have := hfail
        rwa [show start + (k + 1) = start + 1 + k by omega] at this)
      (by omega)
    simp [detect_physical_package_topology, hfe0, hs, hv, hrec]

/-- C9: if a topology descriptor exists but is unreadable or its contents
do not parse as an integer, topology discovery fails with `IoError` and no
partial mapping is returned. -/
theorem topology_io_failure_fatal :
    ∀ (fe : ℕ → Bool) (rf : ℕ → Option String) (pint : String → Option ℤ)
      (k fuel : ℕ),
      (∀ i, i ≤ k → fe i = true) →
      (∀ i, i < k → ∃ s v, rf i = some s ∧ pint s = some v) →
      (rf k = none ∨ ∃ s, rf k = some s ∧ pint s = none) →
      k < fuel →
      detect_physical_package_topology fe rf pint fuel 0 =
        some (.error .ioError) := by
  intro fe rf pint k fuel h hread hfail hfuel
  exact detect_topo_error_go fe rf pint k 0 fuel
    (by simpa using h) (by simpa using hread) (by simpa using hfail) hfuel

/-- Witness for `topology_io_failure_fatal`: CPU 0's descriptor exists but
its contents do not parse as an integer. -/
theorem topology_io_failure_fatal_witness :
    detect_physical_package_topology (fun _ => true) (fun _ => some "x")
      (fun _ => none) 1 0 = some (.error .ioError) :=
  topology_io_failure_fatal (fun _ => true) (fun _ => some "x") (fun _ => none)
    0 1 (fun _ _ => rfl) (fun i hi => absurd hi (by omega))
    (Or.inr ⟨"x", rfl, rfl⟩) (by omega)

theorem read_energy_all_ok (dev : ℕ → ℕ → MsrOutcome) (off : ℕ)
    (cores : List ℕ) (h : ∀ c, ∃ b, dev c off = MsrOutcome.ok b) :
    read_energy_all dev off cores =
      (.ok (cores.map fun c => (c, msrVal dev off c)),
        cores.map fun c => Ev.readEv c off) := by
  induction cores with
  | nil => rfl
  | cons c cs ih =>
    obtain ⟨b, hb⟩ := h c
    simp [read_energy_all, read_msr, hb, ih, msrVal, Except.map]

theorem lookup_map_self {α : Type} (f : ℕ → α) :
    ∀ (cores : List ℕ) (c : ℕ), c ∈ cores →
      (cores.map fun x => (x, f x)).lookup c = some (f c) := by
  intro cores
  induction cores with
  | nil => simp
  | cons a as ih =>
    intro c hc
    by_cases h : c = a
    · subst h
      simp [List.lookup]
    · have hmem : c ∈ as := by
        rcases List.mem_cons.mp hc with h1 | h1
        · exact absurd h1 h
        · exact h1
      have hba : (c == a) = false := beq_eq_false_iff_ne.mpr h
      simpa [List.lookup, hba] using ih c hmem

theorem map_fst_map_pair {α : Type} (f : ℕ → α) (l : List ℕ) :
    (l.map fun x => (x, f x)).map Prod.fst = l := by
  induction l with
  | nil => rfl
  | cons a as ih => simp [ih]

theorem measure_ok (dev : Bool → ℕ → ℕ → MsrOutcome) (cores : List ℕ)
    (unit dur : ℚ) (h : ∀ ph c off, ∃ b, dev ph c off = MsrOutcome.ok b) :
    measure dev cores unit dur =
      (.ok (cores.map fun c => (c, calc_power unit dur
              (devVal dev false AMD_MSR_PACKAGE_ENERGY_OFFSET c)
              (devVal dev true AMD_MSR_PACKAGE_ENERGY_OFFSET c)),
            cores.map fun c => (c, calc_power unit dur
              (devVal dev false AMD_MSR_CORE_ENERGY_OFFSET c)
              (devVal dev true AMD_MSR_CORE_ENERGY_OFFSET c))),
        (cores.map fun c => Ev.readEv c AMD_MSR_PACKAGE_ENERGY_OFFSET) ++
        (cores.map fun c => Ev.readEv c AMD_MSR_CORE_ENERGY_OFFSET) ++
        [Ev.sleepEv dur] ++
        (cores.map fun c => Ev.readEv c AMD_MSR_PACKAGE_ENERGY_OFFSET) ++
        (cores.map fun c => Ev.readEv c AMD_MSR_CORE_ENERGY_OFFSET)) := by
  have hpb := read_energy_all_ok (dev false) AMD_MSR_PACKAGE_ENERGY_OFFSET cores
    (fun c => h false c _)
  have hcb := read_energy_all_ok (dev false) AMD_MSR_CORE_ENERGY_OFFSET cores
    (fun c => h false c _)
  have hpa := read_energy_all_ok (dev true) AMD_MSR_PACKAGE_ENERGY_OFFSET cores
    (fun c => h true c _)
  have hca := read_energy_all_ok (dev true) AMD_MSR_CORE_ENERGY_OFFSET cores
    (fun c => h true c _)
  have hP : ∀ (off : ℕ),
      (cores.map fun c => (c, calc_power unit dur
        (((cores.map fun x => (x, msrVal (dev false) off x)).lookup c).getD 0)
        (((cores.map fun x => (x, msrVal (dev true) off x)).lookup c).getD 0))) =
      cores.map fun c => (c, calc_power unit dur
        (devVal dev false off c) (devVal dev true off c)) := by
    intro off
    refine List.map_congr_left fun c hc => ?_
    rw [lookup_map_self _ cores c hc, lookup_map_self _ cores c hc]
    rfl
  simp only [measure, hpb, hcb, hpa, hca]
  rw [← hP AMD_MSR_PACKAGE_ENERGY_OFFSET, ← hP AMD_MSR_CORE_ENERGY_OFFSET]

/-- C4: with a fault-free device, `measure` reads the package and core
counters of every monitored core before the sleep, sleeps exactly the
configured duration, re-reads both counters for every monitored core, and
returns two power mappings whose key lists are exactly the monitored-core
list, each value computed by `_calc_power` from that core's own
before/after pair for the corresponding counter kind. -/
theorem measure_protocol :
    ∀ (dev : Bool → ℕ → ℕ → MsrOutcome) (cores : List ℕ) (unit dur : ℚ),
      (∀ ph c off, ∃ b, dev ph c off = MsrOutcome.ok b) →
      ∃ pp cp, measure dev cores unit dur = (.ok (pp, cp),
        (cores.map fun c => Ev.readEv c AMD_MSR_PACKAGE_ENERGY_OFFSET) ++
        (cores.map fun c => Ev.readEv c AMD_MSR_CORE_ENERGY_OFFSET) ++
        [Ev.sleepEv dur] ++
        (cores.map fun c => Ev.readEv c AMD_MSR_PACKAGE_ENERGY_OFFSET) ++
        (cores.map fun c => Ev.readEv c AMD_MSR_CORE_ENERGY_OFFSET)) ∧
      pp.map Prod.fst = cores ∧ cp.map Prod.fst = cores ∧
      ∀ c ∈ cores,
        pp.lookup c = some (calc_power unit dur
          (devVal dev false AMD_MSR_PACKAGE_ENERGY_OFFSET c)
          (devVal dev true AMD_MSR_PACKAGE_ENERGY_OFFSET c)) ∧
        cp.lookup c = some (calc_power unit dur
          (devVal dev false AMD_MSR_CORE_ENERGY_OFFSET c)
          (devVal dev true AMD_MSR_CORE_ENERGY_OFFSET c)) := by
  intro dev cores unit dur h
  refine ⟨_, _, measure_ok dev cores unit dur h, map_fst_map_pair _ cores,
    map_fst_map_pair _ cores, fun c hc => ⟨?_, ?_⟩⟩
  · exact lookup_map_self _ cores c hc
  · exact lookup_map_self _ cores c hc

/-- Witness for `measure_protocol`: a constant fault-free device sampled on
cores 0 and 2. -/
theorem measure_protocol_witness :
    ∃ pp cp, measure (fun _ _ _ => MsrOutcome.ok [1, 0, 0, 0, 0, 0, 0, 0])
        [0, 2] 1 1 = (.ok (pp, cp),
      ([0, 2].map fun c => Ev.readEv c AMD_MSR_PACKAGE_ENERGY_OFFSET) ++
      ([0, 2].map fun c => Ev.readEv c AMD_MSR_CORE_ENERGY_OFFSET) ++
      [Ev.sleepEv 1] ++
      ([0, 2].map fun c => Ev.readEv c AMD_MSR_PACKAGE_ENERGY_OFFSET) ++
      ([0, 2].map fun c => Ev.readEv c AMD_MSR_CORE_ENERGY_OFFSET)) ∧
    pp.map Prod.fst = [0, 2] ∧ cp.map Prod.fst = [0, 2] ∧
    ∀ c ∈ [0, 2],
      pp.lookup c = some (calc_power 1 1
        (devVal (fun _ _ _ => MsrOutcome.ok [1, 0, 0, 0, 0, 0, 0, 0]) false
          AMD_MSR_PACKAGE_ENERGY_OFFSET c)
        (devVal (fun _ _ _ => MsrOutcome.ok [1, 0, 0, 0, 0, 0, 0, 0]) true
          AMD_MSR_PACKAGE_ENERGY_OFFSET c)) ∧
      cp.lookup c = some (calc_power 1 1
        (devVal (fun _ _ _ => MsrOutcome.ok [1, 0, 0, 0, 0, 0, 0, 0]) false
          AMD_MSR_CORE_ENERGY_OFFSET c)
        (devVal (fun _ _ _ => MsrOutcome.ok [1, 0, 0, 0, 0, 0, 0, 0]) true
          AMD_MSR_CORE_ENERGY_OFFSET c)) :=
  measure_protocol (fun _ _ _ => MsrOutcome.ok [1, 0, 0, 0, 0, 0, 0, 0])
    [0, 2] 1 1 (fun _ _ _ => ⟨[1, 0, 0, 0, 0, 0, 0, 0], rfl⟩)

theorem read_energy_all_fst_ok (dev : ℕ → ℕ → MsrOutcome) (off : ℕ) :
    ∀ (cores : List ℕ) (m : List (ℕ × ℤ)),
      (read_energy_all dev off cores).1 = .ok m →
      ∀ c ∈ cores, ∃ b, dev c off = MsrOutcome.ok b := by
  intro cores
  induction cores with
  | nil => simp
  | cons a as ih =>
    intro m hm c hc
    cases hread : read_msr dev a off with
    | error e => simp [read_energy_all, hread] at hm
    | ok v =>
      have ha : ∃ b, dev a off = MsrOutcome.ok b := by
        cases hda : dev a off <;> simp [read_msr, hda] at hread
        · exact ⟨_, rfl⟩
      rcases List.mem_cons.mp hc with rfl | hc2
      · exact ha
      · cases hrest : (read_energy_all dev off as).1 with
        | error e => simp [read_energy_all, hread, hrest, Except.map] at hm
        | ok m2 => exact ih m2 hrest c hc2

theorem measure_ok_inv (dev : Bool → ℕ → ℕ → MsrOutcome) (cores : List ℕ)
    (unit dur : ℚ) (r : List (ℕ × ℚ) × List (ℕ × ℚ)) (tr : List Ev)
    (hmes : measure dev cores unit dur = (.ok r, tr)) :
    ∀ ph, ∀ c ∈ cores,
      (∃ b, dev ph c AMD_MSR_PACKAGE_ENERGY_OFFSET = MsrOutcome.ok b) ∧
      (∃ b, dev ph c AMD_MSR_CORE_ENERGY_OFFSET = MsrOutcome.ok b) := by
  simp only [measure] at hmes
  split at hmes
  next heq1 => simp at hmes
  next pkg_before heq1 =>
    split at hmes
    next heq2 => simp at hmes
    next core_before heq2 =>
      split at hmes
      next heq3 => simp at hmes
      next pkg_after heq3 =>
        split at hmes
        next heq4 => simp at hmes
        next core_after heq4 =>
          intro ph c hc
          cases ph
          · exact ⟨read_energy_all_fst_ok _ _ cores _ heq1 c hc,
              read_energy_all_fst_ok _ _ cores _ heq2 c hc⟩
          · exact ⟨read_energy_all_fst_ok _ _ cores _ heq3 c hc,
              read_energy_all_fst_ok _ _ cores _ heq4 c hc⟩

/-- C8: a register read fails with `PermissionError` carrying the
root-privilege message exactly when the OS rejects the access, and with
`FileNotFoundError` carrying the msr-module message exactly when the device
path does not exist; and whenever `measure` returns a result, every read it
needed had succeeded, so no partial or garbage power values are ever
reported. -/
theorem read_msr_error_spec :
    (∀ (dev : ℕ → ℕ → MsrOutcome) (cpu_id offset : ℕ),
      (read_msr dev cpu_id offset = .error (.permissionDenied permission_msg) ↔
        dev cpu_id offset = MsrOutcome.permDenied) ∧
      (read_msr dev cpu_id offset = .error (.fileNotFound notfound_msg) ↔
        dev cpu_id offset = MsrOutcome.notFound)) ∧
    (∀ (dev : Bool → ℕ → ℕ → MsrOutcome) (cores : List ℕ) (unit dur : ℚ)
      (r : List (ℕ × ℚ) × List (ℕ × ℚ)) (tr : List Ev),
      measure dev cores unit dur = (.ok r, tr) →
      ∀ ph, ∀ c ∈ cores,
        (∃ b, dev ph c AMD_MSR_PACKAGE_ENERGY_OFFSET = MsrOutcome.ok b) ∧
        (∃ b, dev ph c AMD_MSR_CORE_ENERGY_OFFSET = MsrOutcome.ok b)) := by
  constructor
  · intro dev cpu_id offset
    constructor
    · cases hda : dev cpu_id offset <;> simp [read_msr, hda]
    · cases hda : dev cpu_id offset <;> simp [read_msr, hda]
  · exact measure_ok_inv

/-- Witness for `read_msr_error_spec`: a fault-free constant device on core
list `[0]` returns a result, and both reads of core 0 succeeded. -/
theorem read_msr_error_spec_witness :
    (∃ b, (fun (_ : Bool) (_ : ℕ) (_ : ℕ) => MsrOutcome.ok [7]) true 0
      AMD_MSR_PACKAGE_ENERGY_OFFSET = MsrOutcome.ok b) ∧
    (∃ b, (fun (_ : Bool) (_ : ℕ) (_ : ℕ) => MsrOutcome.ok [7]) true 0
      AMD_MSR_CORE_ENERGY_OFFSET = MsrOutcome.ok b) :=
  read_msr_error_spec.2 (fun _ _ _ => MsrOutcome.ok [7]) [0] 1 1
    ([(0, calc_power 1 1 7 7)], [(0, calc_power 1 1 7 7)])
    [Ev.readEv 0 AMD_MSR_PACKAGE_ENERGY_OFFSET,
     Ev.readEv 0 AMD_MSR_CORE_ENERGY_OFFSET, Ev.sleepEv 1,
     Ev.readEv 0 AMD_MSR_PACKAGE_ENERGY_OFFSET,
     Ev.readEv 0 AMD_MSR_CORE_ENERGY_OFFSET]
    (by rfl) true 0 (by simp)

theorem socket_entry_go (topo : ℕ → ℤ) (smt : Bool) (cp pp : ℕ → ℚ) (s : ℤ) :
    ∀ (cores : List ℕ) (acc : ℚ × ℚ × List Row),
      cores.foldl (fun st c =>
        if topo c = s then
          (st.1 + cp c, pp c, st.2.2 ++ [Row.coreRow (if smt then c / 2 else c) (cp c)])
        else st) acc =
      (acc.1 + ((cores.filter fun c => topo c == s).map cp).sum,
       (cores.filter fun c => topo c == s).foldl (fun _ c => pp c) acc.2.1,
       acc.2.2 ++ (cores.filter fun c => topo c == s).map
         (fun c => Row.coreRow (if smt then c / 2 else c) (cp c))) := by
  intro cores
  induction cores with
  | nil =>
    intro acc
    obtain ⟨x, y, z⟩ := acc
    simp
  | cons a as ih =>
    intro acc
    obtain ⟨x, y, z⟩ := acc
    by_cases h : topo a = s
    · have hb : (topo a == s) = true := by simp [h]
      rw [List.foldl_cons, List.filter_cons]
      simp only [hb, if_true, if_pos h, ih, List.foldl_cons, List.map_cons, List.sum_cons]
      rw [Prod.mk.injEq, Prod.mk.injEq]
      exact ⟨by ring, rfl, by simp⟩
    · have hb : (topo a == s) = false := by simp [h]
      rw [List.foldl_cons, List.filter_cons]
      simp [hb, if_neg h, ih]

theorem socket_entry_eq (cores : List ℕ) (topo : ℕ → ℤ) (smt : Bool)
    (cp pp : ℕ → ℚ) (s : ℤ) :
    socket_entry cores topo smt cp pp s =
      (((cores.filter fun c => topo c == s).map cp).sum,
       (cores.filter fun c => topo c == s).foldl (fun _ c => pp c) 0,
       (cores.filter fun c => topo c == s).map
         (fun c => Row.coreRow (if smt then c / 2 else c) (cp c))) := by
  rw [socket_entry, socket_entry_go]
  simp

theorem foldl_const_last (pp : ℕ → ℚ) :
    ∀ (l : List ℕ) (init : ℚ), l ≠ [] →
      ∃ c ∈ l, l.foldl (fun _ c => pp c) init = pp c := by
  intro l
  induction l with
  | nil => intro init h; exact absurd rfl h
  | cons a as ih =>
    intro init _
    cases as with
    | nil => exact ⟨a, by simp, by simp⟩
    | cons b bs =>
      obtain ⟨c, hc, heq⟩ := ih (pp a) (by simp)
      exact ⟨c, by simp [List.mem_cons.mp hc], by simpa using heq⟩

theorem mem_foldl_append {α β : Type} (f : α → List β) :
    ∀ (l : List α) (init : List β) (b : β),
      (b ∈ l.foldl (fun acc x => acc ++ f x) init ↔ b ∈ init ∨ ∃ x ∈ l, b ∈ f x) := by
  intro l
  induction l with
  | nil => simp
  | cons a as ih =>
    intro init b
    rw [List.foldl_cons, ih]
    simp only [List.mem_append, List.mem_cons]
    constructor
    · rintro ((h | h) | ⟨x, hx, hb⟩)
      · exact Or.inl h
      · exact Or.inr ⟨a, Or.inl rfl, h⟩
      · exact Or.inr ⟨x, Or.inr hx, hb⟩
    · rintro (h | ⟨x, (rfl | hx), hb⟩)
      · exact Or.inl (Or.inl h)
      · exact Or.inl (Or.inr hb)
      · exact Or.inr ⟨x, hx, hb⟩

/-- C5: every socket row of the rendered table carries, as its cores-power
cell, the sum of `core_power` over the monitored cores of that socket, and,
as its package-power cell, the `package_power` value of a single monitored
core of that socket (not a sum) whenever the socket has a monitored core. -/
theorem socket_aggregation :
    ∀ (sockets : List ℤ) (cores : List ℕ) (topo : ℕ → ℤ) (smt : Bool)
      (cp pp : ℕ → ℚ) (s : ℤ) (t p : ℚ),
      Row.socketRow s t p ∈ format_result sockets cores topo smt cp pp →
      t = ((cores.filter fun c => topo c == s).map cp).sum ∧
      ((cores.filter fun c => topo c == s) ≠ [] →
        ∃ c ∈ cores, topo c = s ∧ p = pp c) := by
  intro sockets cores topo smt cp pp s t p hmem
  rw [format_result] at hmem
  rcases List.mem_cons.mp hmem with h | h
  · exact absurd h (by simp)
  rw [mem_foldl_append] at h
  rcases h with h | ⟨s2, hs2, hblock⟩
  · simp at h
  simp only [socket_block] at hblock
  rcases List.mem_cons.mp hblock with heq | hcore
  · rw [Row.socketRow.injEq] at heq
    obtain ⟨rfl, rfl, rfl⟩ := heq
    rw [socket_entry_eq]
    refine ⟨rfl, fun hne => ?_⟩
    obtain ⟨c, hcf, hval⟩ := foldl_const_last pp _ 0 hne
    have hc := List.mem_filter.mp hcf
    exact ⟨c, hc.1, by simpa using hc.2, hval⟩
  · rw [socket_entry_eq] at hcore
    simp at hcore

/-- Witness for `socket_aggregation`: the table for one socket holding
monitored cores 0 and 2, constant core power 1 and package power 5: the
socket row shows cores power 2 = 1 + 1 and package power 5 = the package
power of one core. -/
theorem socket_aggregation_witness :
    (socket_entry [0, 2] (fun _ => 0) true (fun _ => 1) (fun _ => 5) 0).1 =
      (([0, 2].filter fun c => (fun _ : ℕ => (0 : ℤ)) c == 0).map
        (fun _ => (1 : ℚ))).sum ∧
    (([0, 2].filter fun c => (fun _ : ℕ => (0 : ℤ)) c == 0) ≠ [] →
      ∃ c ∈ [0, 2], (fun _ : ℕ => (0 : ℤ)) c = 0 ∧
        (socket_entry [0, 2] (fun _ => 0) true (fun _ => 1) (fun _ => 5) 0).2.1 =
          (fun _ : ℕ => (5 : ℚ)) c) :=
  socket_aggregation [0] [0, 2] (fun _ => 0) true (fun _ => 1) (fun _ => 5) 0 _ _
    (by simp [format_result, socket_block])

/-- C10: in the rendered table, the rows of a socket's monitored cores are
labeled with the core id integer-divided by 2 when SMT is enabled and with
the core id unchanged when SMT is disabled; monitored cores 0, 2, 4 display
as CORE 0, 1, 2 with SMT enabled, and 0, 1, 2, 3 stay 0, 1, 2, 3 with SMT
disabled. -/
theorem core_row_labels :
    (∀ (cores : List ℕ) (topo : ℕ → ℤ) (smt : Bool) (cp pp : ℕ → ℚ) (s : ℤ),
      (socket_entry cores topo smt cp pp s).2.2 =
        (cores.filter fun c => topo c == s).map
          (fun c => Row.coreRow (if smt then c / 2 else c) (cp c))) ∧
    (socket_entry [0, 2, 4] (fun _ => 0) true (fun _ => 1) (fun _ => 2) 0).2.2 =
      [Row.coreRow 0 1, Row.coreRow 1 1, Row.coreRow 2 1] ∧
    (socket_entry [0, 1, 2, 3] (fun _ => 0) false (fun _ => 1) (fun _ => 2) 0).2.2 =
      [Row.coreRow 0 1, Row.coreRow 1 1, Row.coreRow 2 1, Row.coreRow 3 1] := by
  refine ⟨fun cores topo smt cp pp s => ?_, by decide, by decide⟩
  rw [socket_entry_eq]

end RyzenPower
